import Mathlib

/-!
# SST39SF0x0 flasher, host side (`main.c`)

A shallow embedding of `main.c` and a verification of its serial protocol.

The program talks to three collaborators: the serial transport (`rs232.h`), the C
library's file and heap functions, and standard output.  Every call to one of them is
recorded as an `Event`; a run of the program is the list of events in program order
together with the way the run ends (`Outcome`).  What the collaborators answer is the
input of the run (`Env`).

Bytes are natural numbers.  Everything proved for all naturals holds for all bytes; the
concrete inputs used below are bytes.  The one machine integer whose width matters is the
32-bit counter `junkC` of `waitRDY`, which is reduced modulo `2^32` at each increment.
-/

namespace Flasher

/-- Lines written to standard output, one constructor per `printf`/`putchar` site of
`main.c`; the arguments are the values the format string prints. -/
inductive Msg where
  /-- line 57 -/
  | banner
  /-- lines 48-49 (`help`) -/
  | usage (argv0 : String)
  /-- lines 41-43 (`printCOM`) -/
  | comTable
  /-- line 68 -/
  | badFlag (arg : String)
  /-- line 78 -/
  | dumpingTo
  /-- line 79 -/
  | flashingFrom
  /-- line 80; the port number is `strtoul (argv[1])`, kept as the argument text -/
  | onPort (file port : String)
  /-- line 84 -/
  | comOpenErr (port : String)
  /-- line 22 -/
  | junkChar (tempC expected junkC : Nat)
  /-- line 27 -/
  | junkSkipped (junkC : Nat)
  /-- line 100 -/
  | flasherReady
  /-- line 104 -/
  | chipInfo
  /-- line 105; the name comes from `getManufacturer` of `flashdata.h` -/
  | manufacturer (manid : Nat)
  /-- line 108 -/
  | deviceId (id : Nat)
  /-- lines 114, 118, 122 -/
  | chipName (name : String)
  /-- line 126 -/
  | capacityUnknown
  /-- line 142 -/
  | fileOpenErr
  /-- line 152 -/
  | fileTooLarge (size capacity : Nat)
  /-- line 164 -/
  | allocErr
  /-- line 176 -/
  | erasing
  /-- line 179 -/
  | eraseStartErr
  /-- lines 183 and 202 (`putchar`) -/
  | newline
  /-- line 186 -/
  | eraseComplete
  /-- line 188 -/
  | eraseErr (id : Nat)
  /-- line 192 -/
  | beginFlash (file : String)
  /-- line 198 -/
  | beginDump (file : String)
  /-- line 36 -/
  | progErr (datr : Nat)
  /-- line 213 -/
  | verifyErr (data x expected : Nat)
  /-- line 216; the percentage is a float computed from `x` and `capacity` -/
  | progress (x capacity : Nat)
  /-- line 219 -/
  | completed
  deriving DecidableEq, Repr

/-- One call to a collaborator, with what was passed and what came back. -/
inductive Event where
  /-- `RS232_OpenComport`; `ok` is true when it returned 0 -/
  | openPort (ok : Bool)
  /-- `RS232_PollComport (COM_PORT, &b, 1)` delivered the byte `b` -/
  | recv (b : Nat)
  /-- `RS232_SendByte (COM_PORT, b)` -/
  | send (b : Nat)
  /-- `RS232_CloseComport` -/
  | closePort
  /-- `printf` / `putchar` -/
  | print (m : Msg)
  /-- `fopen`; `write` is true for mode "wb", false for "rb"; `ok` is true for a non-null handle -/
  | fopen (write ok : Bool)
  /-- `fclose (fp)` -/
  | fclose
  /-- `calloc (1, n)`; `ok` is true for a non-null pointer -/
  | calloc (n : Nat) (ok : Bool)
  /-- `fread (dat, 1, n, fp)` -/
  | fread (n : Nat)
  /-- `free (dat)` -/
  | free
  /-- `fputc (b, fp)` -/
  | fputc (b : Nat)
  deriving DecidableEq, Repr

/-- How a run ends. -/
inductive Outcome where
  /-- `main` returned `code` -/
  | exit (code : Nat)
  /-- a read waits for a byte the device never sends: the run never returns -/
  | blocked
  /-- `fputc` on a null handle (dump mode, `fopen` failed and is not checked) -/
  | undefinedBehaviour
  deriving DecidableEq, Repr

/-- A run: the events in program order and the way the run ends. -/
structure Run where
  trace : List Event
  outcome : Outcome
  deriving DecidableEq, Repr

/-- The run `r` preceded by the events `ev`. -/
def Run.after (ev : List Event) (r : Run) : Run :=
  ⟨ev ++ r.trace, r.outcome⟩

/-- What the collaborators answer during one run. -/
structure Env where
  /-- the command line, `argv[0]` included; `argc` is its length -/
  argv : List String
  /-- whether `RS232_OpenComport` succeeds -/
  portOpens : Bool
  /-- the bytes the device sends, in order, for the whole run -/
  rx : List Nat
  /-- the source file named by `argv[2]`: `none` when `fopen (.., "rb")` fails -/
  srcFile : Option (List Nat)
  /-- whether `calloc` succeeds -/
  allocOk : Bool
  /-- whether `fopen (.., "wb")` succeeds -/
  outOpens : Bool

/-- Modelled from the spec: `RS232_PollComport` of `rs232.h`, a blocking one-byte receive.
It delivers the next byte the device sends; with no byte left it waits for ever (`none`). -/
def RS232_PollComport : List Nat → Option (Nat × List Nat)
  | [] => none
  | b :: rx => some (b, rx)

/-- The bytes sent by the host, in order. -/
def sentBytes : List Event → List Nat
  | [] => []
  | Event.send b :: ev => b :: sentBytes ev
  | _ :: ev => sentBytes ev

/-- The bytes read from the transport, in order. -/
def recvBytes : List Event → List Nat
  | [] => []
  | Event.recv b :: ev => b :: recvBytes ev
  | _ :: ev => recvBytes ev

/-- The bytes written to the output file, in order. -/
def fileBytes : List Event → List Nat
  | [] => []
  | Event.fputc b :: ev => b :: fileBytes ev
  | _ :: ev => fileBytes ev

/-- The number of junk diagnostics of line 22 in a trace. -/
def junkLines : List Event → Nat
  | [] => 0
  | Event.print (Msg.junkChar _ _ _) :: ev => junkLines ev + 1
  | _ :: ev => junkLines ev

/-- `Sig` of line 14: the characters of "RDY". -/
def Sig : List Nat := [82, 68, 89]

/-- The do-while of lines 18-24 for one expected character: read bytes until one equals
`expected`; each other byte increments the 32-bit `junkC` and is reported.  Returns the
events and, unless the device stops sending, `junkC` and the bytes not yet read. -/
def waitChar (expected : Nat) : List Nat → Nat → List Event × Option (Nat × List Nat)
  | [], _ => ([], none)
  | tempC :: rx, junkC =>
    if tempC ≠ expected then
      let junkC1 := (junkC + 1) % 4294967296
      let r := waitChar expected rx junkC1
      (Event.recv tempC :: Event.print (Msg.junkChar tempC expected junkC1) :: r.1, r.2)
    else
      ([Event.recv tempC], some (junkC, rx))

/-- The `for` loop of lines 17-25; the first argument is what is left of `Sig`
from index `x` on. -/
def waitSig : List Nat → List Nat → Nat → List Event × Option (Nat × List Nat)
  | [], rx, junkC => ([], some (junkC, rx))
  | c :: sig, rx, junkC =>
    match waitChar c rx junkC with
    | (ev, none) => (ev, none)
    | (ev, some (junkC1, rx1)) =>
      let r := waitSig sig rx1 junkC1
      (ev ++ r.1, r.2)

/-- `waitRDY` (lines 13-28): the loop, then the summary line when `junkC` is not 0. -/
def waitRDY (rx : List Nat) : List Event × Option (List Nat) :=
  match waitSig Sig rx 0 with
  | (ev, none) => (ev, none)
  | (ev, some (junkC, rx1)) =>
    (if junkC ≠ 0 then ev ++ [Event.print (Msg.junkSkipped junkC)] else ev, some rx1)

/-- `programByte` (lines 31-37): send `dat`, read the acknowledgment, report it when it is
not 'N'. -/
def programByte (dat : Nat) (rx : List Nat) : List Event × Option (List Nat) :=
  match RS232_PollComport rx with
  | none => ([Event.send dat], none)
  | some (datr, rx1) =>
    (Event.send dat :: Event.recv datr ::
      (if datr ≠ 78 then [Event.print (Msg.progErr datr)] else []), some rx1)

/-- `printCOM` (lines 40-44). -/
def printCOM : List Event := [Event.print Msg.comTable]

/-- `help` (lines 47-52). -/
def help (argv : List String) : List Event :=
  Event.print (Msg.usage (argv.getD 0 "")) :: printCOM

/-- Lines 60-72: the mode, or the events of the early return with status 1. -/
def parseMode (argv : List String) : Except (List Event) Bool :=
  if argv.length ≠ 3 ∧ argv.length ≠ 4 then
    Except.error (help argv)
  else if argv.length = 4 then
    if argv.getD 3 "" = "-d" then
      Except.ok true
    else
      Except.error (Event.print (Msg.badFlag (argv.getD 3 "")) :: help argv)
  else
    Except.ok false

/-- Lines 110-128: the name line and the capacity decided by the device ID. -/
def chipCapacity (id : Nat) : List Event × Nat :=
  if id = 0xB5 then ([Event.print (Msg.chipName "SST39SF010A")], 131072)
  else if id = 0xB6 then ([Event.print (Msg.chipName "SST39SF020A")], 262144)
  else if id = 0xB7 then ([Event.print (Msg.chipName "SST39SF040")], 524288)
  else ([Event.print Msg.capacityUnknown], 524288)

/-- Lines 160 and 170: `calloc (1, capacity)` gives `capacity` zero bytes and
`fread (dat, 1, size, fp)` copies the file's `size` bytes over the first `size` of them. -/
def loadBuffer (capacity : Nat) (file : List Nat) : List Nat :=
  file.take file.length ++ (List.replicate capacity 0).drop file.length

/-- The transfer loop of lines 204-217, from index `x` on.  `fpOk` tells whether `fp` is
a valid handle, `dat` is the buffer; reading `dat[x]` outside the buffer is undefined
behaviour.  The second component is `none` when the loop runs to its end and the way the run
ends otherwise. -/
def transferLoop (dump fpOk : Bool) (dat : List Nat) (capacity : Nat) (x : Nat)
    (rx : List Nat) : List Event × Option Outcome :=
  if x < capacity then
    if dump then
      match RS232_PollComport rx with
      | none => ([], some Outcome.blocked)
      | some (data, rx1) =>
        if fpOk then
          let r := transferLoop dump fpOk dat capacity (x + 1) rx1
          (Event.recv data :: Event.fputc data ::
            Event.print (Msg.progress x capacity) :: r.1, r.2)
        else
          ([Event.recv data], some Outcome.undefinedBehaviour)
    else
      match dat[x]? with
      | none => ([], some Outcome.undefinedBehaviour)
      | some d =>
        match programByte d rx with
        | (ev, none) => (ev, some Outcome.blocked)
        | (ev, some rx1) =>
          match RS232_PollComport rx1 with
          | none => (ev, some Outcome.blocked)
          | some (data, rx2) =>
            let r := transferLoop dump fpOk dat capacity (x + 1) rx2
            (ev ++ Event.recv data ::
              ((if data ≠ d then
                  [Event.print (Msg.verifyErr data x d)] else []) ++
                Event.print (Msg.progress x capacity) :: r.1), r.2)
  else
    ([], none)
termination_by capacity - x

/-- Lines 201-229: the transfer loop and the teardown. -/
def transfer (dump fpOk : Bool) (dat : List Nat) (capacity : Nat) (rx : List Nat) : Run :=
  Run.after [Event.print Msg.newline] <|
    match transferLoop dump fpOk dat capacity 0 rx with
    | (ev, some o) => ⟨ev, o⟩
    | (ev, none) =>
      ⟨ev ++ [Event.print Msg.completed, Event.closePort,
              if dump then Event.fclose else Event.free], Outcome.exit 0⟩

/-- Lines 136-193 in flashing mode, then the transfer. -/
def flashMode (env : Env) (capacity : Nat) (rx : List Nat) : Run :=
  match env.srcFile with
  | none => ⟨[Event.fopen false false, Event.print Msg.fileOpenErr], Outcome.exit 1⟩
  | some file =>
    Run.after [Event.fopen false true] <|
    if file.length > capacity then
      ⟨[Event.print (Msg.fileTooLarge file.length capacity), Event.fclose], Outcome.exit 1⟩
    else if env.allocOk = false then
      ⟨[Event.calloc capacity false, Event.print Msg.allocErr, Event.fclose],
        Outcome.exit 1⟩
    else
      Run.after [Event.calloc capacity true, Event.fread file.length, Event.fclose,
                 Event.print Msg.erasing] <|
      match RS232_PollComport rx with
      | none => ⟨[], Outcome.blocked⟩
      | some (id, rx1) =>
        Run.after [Event.recv id] <|
        if id ≠ 68 then
          ⟨[Event.print Msg.eraseStartErr, Event.free], Outcome.exit 1⟩
        else
          Run.after [Event.print Msg.newline] <|
          match RS232_PollComport rx1 with
          | none => ⟨[], Outcome.blocked⟩
          | some (id2, rx2) =>
            Run.after [Event.recv id2] <|
            if id2 = 83 then
              Run.after [Event.print Msg.eraseComplete,
                         Event.print (Msg.beginFlash (env.argv.getD 2 ""))] <|
              transfer false false (loadBuffer capacity file) capacity rx2
            else
              ⟨[Event.print (Msg.eraseErr id2), Event.free], Outcome.exit 1⟩

/-- Lines 195-199 in dumping mode, then the transfer. -/
def dumpMode (env : Env) (capacity : Nat) (rx : List Nat) : Run :=
  Run.after [Event.fopen true env.outOpens,
             Event.print (Msg.beginDump (env.argv.getD 2 ""))] <|
  transfer true env.outOpens [] capacity rx

/-- Lines 89-108: first ready marker, the two command bytes, second ready marker, the two
identification bytes.  Returns the events and, unless the device stops sending, the
manufacturer ID, the device ID and the bytes not yet read. -/
def handshake (dump : Bool) (rx : List Nat) : List Event × Option (Nat × Nat × List Nat) :=
  match waitRDY rx with
  | (e1, none) => (e1, none)
  | (e1, some rx1) =>
    let cmd := [Event.send 82, Event.send (if dump then 82 else 87)]
    match waitRDY rx1 with
    | (e2, none) => (e1 ++ cmd ++ e2, none)
    | (e2, some rx2) =>
      match RS232_PollComport rx2 with
      | none => (e1 ++ cmd ++ e2 ++ [Event.print Msg.flasherReady], none)
      | some (manid, rx3) =>
        match RS232_PollComport rx3 with
        | none =>
          (e1 ++ cmd ++ e2 ++ [Event.print Msg.flasherReady, Event.recv manid,
            Event.print Msg.chipInfo, Event.print (Msg.manufacturer manid)], none)
        | some (id, rx4) =>
          (e1 ++ cmd ++ e2 ++ [Event.print Msg.flasherReady, Event.recv manid,
            Event.print Msg.chipInfo, Event.print (Msg.manufacturer manid),
            Event.recv id, Event.print (Msg.deviceId id)], some (manid, id, rx4))

/-- `main` (lines 56-230). -/
def main (env : Env) : Run :=
  Run.after [Event.print Msg.banner] <|
  match parseMode env.argv with
  | Except.error ev => ⟨ev, Outcome.exit 1⟩
  | Except.ok dump =>
    Run.after [Event.print (if dump then Msg.dumpingTo else Msg.flashingFrom),
               Event.print (Msg.onPort (env.argv.getD 2 "") (env.argv.getD 1 ""))] <|
    if env.portOpens = false then
      ⟨Event.openPort false :: Event.print (Msg.comOpenErr (env.argv.getD 1 "")) :: printCOM,
        Outcome.exit 1⟩
    else
      Run.after [Event.openPort true] <|
      match handshake dump env.rx with
      | (ev, none) => ⟨ev, Outcome.blocked⟩
      | (ev, some (_, id, rx)) =>
        Run.after (ev ++ (chipCapacity id).1) <|
        if dump = false then flashMode env (chipCapacity id).2 rx
        else dumpMode env (chipCapacity id).2 rx

/-- The events of one write cycle. -/
def cycleEvents (b ack rb i capacity : Nat) : List Event :=
  [Event.send b, Event.recv ack] ++
    (if ack ≠ 78 then [Event.print (Msg.progErr ack)] else []) ++
    [Event.recv rb] ++
    (if rb ≠ b then [Event.print (Msg.verifyErr rb i b)] else []) ++
    [Event.print (Msg.progress i capacity)]

/-- The events before the handshake when the port opens. -/
def opening (env : Env) (dump : Bool) : List Event :=
  [Event.print Msg.banner,
   Event.print (if dump then Msg.dumpingTo else Msg.flashingFrom),
   Event.print (Msg.onPort (env.argv.getD 2 "") (env.argv.getD 1 "")),
   Event.openPort true]

/-- The events of flashing mode up to and including the allocation of the buffer. -/
def flashSetup (capacity size : Nat) : List Event :=
  [Event.fopen false true, Event.calloc capacity true, Event.fread size, Event.fclose,
   Event.print Msg.erasing]

/-- A flashing session whose source file has 131073 bytes, for the 131072-byte chip. -/
def oversized : Env :=
  Env.mk ["flasher", "3", "big.bin"] true
    ([82, 68, 89, 82, 68, 89, 191, 181, 68, 83])
    (some (List.replicate 131073 0)) true true

/-- The handshake events of a device that sends RDY, RDY and the two IDs, with no junk. -/
def cleanHandshake (dump : Bool) (manid id : Nat) : List Event :=
  [Event.recv 82, Event.recv 68, Event.recv 89, Event.send 82,
   Event.send (if dump then 82 else 87),
   Event.recv 82, Event.recv 68, Event.recv 89, Event.print Msg.flasherReady,
   Event.recv manid, Event.print Msg.chipInfo, Event.print (Msg.manufacturer manid),
   Event.recv id, Event.print (Msg.deviceId id)]

/-- A flashing session whose source file cannot be opened. -/
def unreadable : Env :=
  Env.mk ["flasher", "3", "missing.bin"] true
    ([82, 68, 89, 82, 68, 89, 191, 183, 68, 83])
    none true true

/-- A flashing session in which `calloc` fails. -/
def noMemory : Env :=
  Env.mk ["flasher", "3", "test.bin"] true
    ([82, 68, 89, 82, 68, 89, 191, 183, 68, 83])
    (some [1, 2, 3]) false true

/-- A flashing session in which the device answers 'E' where 'D' is expected. -/
def eraseNotStarted : Env :=
  Env.mk ["flasher", "3", "test.bin"] true
    ([82, 68, 89, 82, 68, 89, 191, 183, 69, 83])
    (some [1, 2, 3]) true true

/-- A flashing session in which the device answers 'D' and then 'T' where 'S' is expected. -/
def eraseNotDone : Env :=
  Env.mk ["flasher", "3", "test.bin"] true
    ([82, 68, 89, 82, 68, 89, 191, 183, 68, 84])
    (some [1, 2, 3]) true true

/-- A device that answers every read with 'N' (1048576 bytes of it). -/
def steadyDevice : List Nat := List.replicate 1048576 78

/-- A flashing session: 100-byte file, device ID 0 (not in the table), a device that
acknowledges every byte with 'N' and reads back 'N'. -/
def demoWrite : Env :=
  Env.mk ["flasher", "3", "test.bin"] true
    ([82, 68, 89, 82, 68, 89, 191, 0, 68, 83] ++ steadyDevice)
    (some (List.replicate 100 7)) true true

/-- A dumping session with device ID 0xB6. -/
def demoDump : Env :=
  Env.mk ["flasher", "3", "out.bin", "-d"] true
    ([82, 68, 89, 82, 68, 89, 191, 182] ++ steadyDevice)
    none true true

theorem waitChar_none (c : Nat) (rx : List Nat) (j : Nat) :
    (waitChar c rx j).2 = none ↔ c ∉ rx := by
  induction rx generalizing j with
  | nil => simp [waitChar]
  | cons b rx ih =>
    by_cases hb : b = c
    · subst hb; simp [waitChar]
    · have hc : ¬ c = b := fun h => hb h.symm
      simp [waitChar, hb, hc, ih]

theorem waitChar_some (c : Nat) (rx : List Nat) (j : Nat)
    (ev : List Event) (j1 : Nat) (rest : List Nat)
    (h : waitChar c rx j = (ev, some (j1, rest))) :
    ∃ junk, rx = junk ++ c :: rest ∧ c ∉ junk ∧
      j1 % 4294967296 = (j + junk.length) % 4294967296 ∧ (j < 4294967296 → j1 < 4294967296) ∧
      recvBytes ev = junk ++ [c] ∧ sentBytes ev = [] ∧ fileBytes ev = [] ∧
      junkLines ev = junk.length := by
  induction rx generalizing j ev with
  | nil => simp [waitChar] at h
  | cons b rx ih =>
    by_cases hb : b = c
    · subst hb
      simp [waitChar] at h
      obtain ⟨rfl, rfl, rfl⟩ := h
      exact ⟨[], by simp, by simp, by simp, fun h => h, by simp [recvBytes],
        by simp [sentBytes], by simp [fileBytes], by simp [junkLines]⟩
    · simp only [waitChar, ne_eq, hb, not_false_eq_true, ↓reduceIte, Prod.mk.injEq] at h
      obtain ⟨rfl, h2⟩ := h
      have hlt : (j + 1) % 4294967296 < 4294967296 := Nat.mod_lt _ (by norm_num)
      obtain ⟨junk, h1, h3, h4, h4b, h5, h6, h7, h8⟩ :=
        ih ((j + 1) % 4294967296) _ (Prod.ext rfl h2)
      refine ⟨b :: junk, by simp [h1], ?_, ?_, fun _ => h4b hlt, by simp [recvBytes, h5],
        by simp [sentBytes, h6], by simp [fileBytes, h7], by simp [junkLines, h8]⟩
      · simp only [List.mem_cons, not_or]
        exact ⟨fun h => hb h.symm, h3⟩
      · rw [h4]; simp only [List.length_cons]
        omega

theorem sublist_skip (c : Nat) (s junk r : List Nat) (hc : c ∉ junk) :
    List.Sublist (c :: s) (junk ++ c :: r) ↔ List.Sublist s r := by
  induction junk with
  | nil => simp
  | cons b junk ih =>
    simp only [List.mem_cons, not_or] at hc
    rw [List.cons_append, List.sublist_cons_iff]
    constructor
    · rintro (h | ⟨t, ht, _⟩)
      · exact (ih hc.2).1 h
      · simp only [List.cons.injEq] at ht
        exact absurd ht.1 hc.1
    · intro h
      exact Or.inl ((ih hc.2).2 h)

theorem take_skip (c : Nat) (s junk r : List Nat) (hc : c ∉ junk) (n : Nat)
    (h : List.Sublist (c :: s) ((junk ++ c :: r).take n)) :
    ∃ m, n = junk.length + 1 + m ∧ List.Sublist s (r.take m) := by
  by_cases hn : n ≤ junk.length
  · exfalso
    rw [List.take_append_of_le_length hn] at h
    have : c ∈ junk.take n := h.subset (List.mem_cons_self _ _)
    exact hc (List.mem_of_mem_take this)
  · obtain ⟨m, rfl⟩ : ∃ m, n = junk.length + 1 + m := ⟨n - junk.length - 1, by omega⟩
    refine ⟨m, rfl, ?_⟩
    have e : (junk ++ c :: r).take (junk.length + 1 + m) = junk ++ c :: r.take m := by
      rw [List.take_append_eq_append_take]
      have h1 : junk.length + 1 + m - junk.length = m + 1 := by omega
      rw [h1, List.take_succ_cons, List.take_of_length_le (by omega)]
    rw [e] at h
    exact (sublist_skip c s junk _ hc).1 h

theorem waitSig_none (s rx : List Nat) (j : Nat) :
    (waitSig s rx j).2 = none ↔ ¬ List.Sublist s rx := by
  induction s generalizing rx j with
  | nil => simp [waitSig]
  | cons c s ih =>
    rcases hw : waitChar c rx j with ⟨e1, _ | ⟨j1, rx1⟩⟩
    · simp only [waitSig, hw, true_iff]
      have hc : c ∉ rx := (waitChar_none c rx j).1 (by rw [hw])
      intro h
      exact hc (h.subset (List.mem_cons_self _ _))
    · obtain ⟨junk, h1, h2, -⟩ := waitChar_some c rx j e1 j1 rx1 hw
      simp only [waitSig, hw]
      rw [ih rx1 j1, h1, sublist_skip c s junk rx1 h2]

theorem waitSig_some (s rx : List Nat) (j : Nat) (ev : List Event) (j1 : Nat)
    (rest : List Nat) (h : waitSig s rx j = (ev, some (j1, rest))) :
    ∃ p, rx = p ++ rest ∧ List.Sublist s p ∧
      ∀ n, List.Sublist s (rx.take n) → p.length ≤ n := by
  induction s generalizing rx j ev with
  | nil =>
    simp only [waitSig, Prod.mk.injEq, Option.some.injEq] at h
    obtain ⟨-, -, rfl⟩ := h
    exact ⟨[], by simp, by simp, by simp⟩
  | cons c s ih =>
    rcases hw : waitChar c rx j with ⟨e1, _ | ⟨j2, rx1⟩⟩
    · simp [waitSig, hw] at h
    · obtain ⟨junk, h1, h2, -⟩ := waitChar_some c rx j e1 j2 rx1 hw
      simp only [waitSig, hw, Prod.mk.injEq] at h
      obtain ⟨p, hp1, hp2, hp3⟩ := ih rx1 j2 _ (Prod.ext rfl h.2)
      refine ⟨junk ++ c :: p, by rw [h1, hp1]; simp, ?_, ?_⟩
      · exact (sublist_skip c s junk p h2).2 hp2
      · intro n hn
        rw [h1] at hn
        obtain ⟨m, rfl, hm⟩ := take_skip c s junk rx1 h2 n hn
        have := hp3 m hm
        simp only [List.length_append, List.length_cons]
        omega

theorem sentBytes_append (a b : List Event) : sentBytes (a ++ b) = sentBytes a ++ sentBytes b := by
  induction a with
  | nil => rfl
  | cons e a ih => cases e <;> simp [sentBytes, ih]

theorem recvBytes_append (a b : List Event) : recvBytes (a ++ b) = recvBytes a ++ recvBytes b := by
  induction a with
  | nil => rfl
  | cons e a ih => cases e <;> simp [recvBytes, ih]

theorem fileBytes_append (a b : List Event) : fileBytes (a ++ b) = fileBytes a ++ fileBytes b := by
  induction a with
  | nil => rfl
  | cons e a ih => cases e <;> simp [fileBytes, ih]

theorem junkLines_append (a b : List Event) : junkLines (a ++ b) = junkLines a + junkLines b := by
  induction a with
  | nil => simp [junkLines]
  | cons e a ih =>
    cases e with
    | print m => cases m <;> simp +arith [junkLines, ih]
    | _ => simp [junkLines, ih]

theorem waitRDY_rdy (rx rest : List Nat) (h : (waitRDY rx).2 = some rest) :
    ∃ j1 j2 j3 ev junkC,
      rx = j1 ++ 82 :: (j2 ++ 68 :: (j3 ++ 89 :: rest)) ∧
      82 ∉ j1 ∧ 68 ∉ j2 ∧ 89 ∉ j3 ∧
      waitSig Sig rx 0 = (ev, some (junkC, rest)) ∧
      (waitRDY rx).1 =
        ev ++ (if junkC ≠ 0 then [Event.print (Msg.junkSkipped junkC)] else []) ∧
      recvBytes ev = j1 ++ 82 :: (j2 ++ 68 :: (j3 ++ [89])) ∧
      sentBytes ev = [] ∧ fileBytes ev = [] ∧
      junkLines ev = j1.length + j2.length + j3.length ∧
      junkC = (j1.length + j2.length + j3.length) % 4294967296 := by
  rcases hw : waitSig Sig rx 0 with ⟨ev, _ | ⟨junkC, rest1⟩⟩
  · simp [waitRDY, hw] at h
  · have hr : rest1 = rest := by simpa [waitRDY, hw] using h
    subst hr
    have hw0 := hw
    simp only [Sig, waitSig] at hw
    rcases h1 : waitChar 82 rx 0 with ⟨e1, _ | ⟨c1, r1⟩⟩
    · simp [h1] at hw
    rcases h2 : waitChar 68 r1 c1 with ⟨e2, _ | ⟨c2, r2⟩⟩
    · simp [h1, h2] at hw
    rcases h3 : waitChar 89 r2 c2 with ⟨e3, _ | ⟨c3, r3⟩⟩
    · simp [h1, h2, h3] at hw
    simp only [h1, h2, h3, List.append_nil, Prod.mk.injEq, Option.some.injEq] at hw
    obtain ⟨rfl, rfl, rfl⟩ := hw
    obtain ⟨j1, a1, a2, a3, a4, a5, a6, a7, a8⟩ := waitChar_some 82 rx 0 e1 c1 r1 h1
    obtain ⟨j2, b1, b2, b3, b4, b5, b6, b7, b8⟩ := waitChar_some 68 r1 c1 e2 c2 r2 h2
    obtain ⟨j3, d1, d2, d3, d4, d5, d6, d7, d8⟩ := waitChar_some 89 r2 c2 e3 c3 r3 h3
    have hc1 := a4 (by norm_num)
    have hc2 := b4 hc1
    have hc3 := d4 hc2
    refine ⟨j1, j2, j3, _, c3, by rw [a1, b1, d1], a2, b2, d2, rfl, ?_, ?_, ?_, ?_, ?_, ?_⟩
    · simp only [waitRDY, hw0]
      split <;> simp
    · simp [recvBytes_append, a5, b5, d5]
    · simp [sentBytes_append, a6, b6, d6]
    · simp [fileBytes_append, a7, b7, d7]
    · simp [junkLines_append, a8, b8, d8, Nat.add_assoc]
    · rw [Nat.mod_eq_of_lt hc1] at a3
      rw [Nat.mod_eq_of_lt hc2] at b3
      rw [Nat.mod_eq_of_lt hc3] at d3
      omega

theorem transferLoop_write (fp : Bool) (dat : List Nat) (capacity n x : Nat) (rx : List Nat)
    (hx : x + n = capacity) (hrx : 2 * n ≤ rx.length) (hdat : capacity ≤ dat.length) :
    transferLoop false fp dat capacity x rx =
      ((List.range n).flatMap (fun k =>
          cycleEvents (dat.getD (x + k) 0) (rx.getD (2 * k) 0) (rx.getD (2 * k + 1) 0)
            (x + k) capacity), none) := by
  induction n generalizing x rx with
  | zero =>
    rw [transferLoop]
    simp [show ¬ x < capacity by omega]
  | succ n ih =>
    match rx, hrx with
    | ack :: rb :: rx2, hrx =>
      rw [transferLoop]
      have h2 : 2 * n ≤ rx2.length := by simp at hrx; omega
      have hlt : x < dat.length := by omega
      have hd : dat[x]? = some (dat.getD x 0) := by
        rw [List.getD_eq_getElem?_getD, List.getElem?_eq_getElem hlt]
        rfl
      simp only [show x < capacity by omega, ↓reduceIte, hd, programByte, RS232_PollComport,
        Bool.false_eq_true, ih (x + 1) rx2 (by omega) h2]
      rw [List.range_succ_eq_map, List.flatMap_cons, List.flatMap_map]
      simp only [cycleEvents, Prod.mk.injEq, and_true]
      simp only [Function.comp_def, Nat.succ_eq_add_one, Nat.mul_add, Nat.mul_one]
      simp [Nat.add_assoc, Nat.add_comm 1]
    | [], hrx => simp at hrx
    | [_], hrx => exact absurd hrx (by simp only [List.length_singleton]; omega)

/-- A buffer shorter than `capacity` does not give zeros: the loop reads outside it. -/
theorem transferLoop_short (fp : Bool) (dat : List Nat) (capacity x : Nat) (rx : List Nat)
    (hx : x < capacity) (hdat : dat.length ≤ x) :
    transferLoop false fp dat capacity x rx = ([], some Outcome.undefinedBehaviour) := by
  rw [transferLoop]
  simp [hx, List.getElem?_eq_none hdat]

theorem transferLoop_dump (dat : List Nat) (capacity n x : Nat) (rx : List Nat)
    (hx : x + n = capacity) (hrx : n ≤ rx.length) :
    transferLoop true true dat capacity x rx =
      ((List.range n).flatMap (fun k =>
          [Event.recv (rx.getD k 0), Event.fputc (rx.getD k 0),
            Event.print (Msg.progress (x + k) capacity)]), none) := by
  induction n generalizing x rx with
  | zero =>
    rw [transferLoop]
    simp [show ¬ x < capacity by omega]
  | succ n ih =>
    match rx, hrx with
    | data :: rx1, hrx =>
      rw [transferLoop]
      have h2 : n ≤ rx1.length := by simp at hrx; omega
      simp only [show x < capacity by omega, ↓reduceIte, RS232_PollComport,
        ih (x + 1) rx1 (by omega) h2]
      rw [List.range_succ_eq_map, List.flatMap_cons, List.flatMap_map]
      simp only [Function.comp_def, Nat.succ_eq_add_one]
      simp [Nat.add_assoc, Nat.add_comm 1]
    | [], hrx => simp at hrx

theorem after_trace (ev : List Event) (r : Run) : (Run.after ev r).trace = ev ++ r.trace := rfl

theorem after_outcome (ev : List Event) (r : Run) : (Run.after ev r).outcome = r.outcome := rfl

theorem after_after (a b : List Event) (r : Run) :
    Run.after a (Run.after b r) = Run.after (a ++ b) r := by
  simp [Run.after]

theorem waitChar_sent (c : Nat) (rx : List Nat) (j : Nat) :
    sentBytes (waitChar c rx j).1 = [] := by
  induction rx generalizing j with
  | nil => simp [waitChar, sentBytes]
  | cons b rx ih =>
    by_cases hb : b = c
    · simp [waitChar, hb, sentBytes]
    · simp [waitChar, hb, sentBytes, ih]

theorem waitSig_sent (s rx : List Nat) (j : Nat) : sentBytes (waitSig s rx j).1 = [] := by
  induction s generalizing rx j with
  | nil => simp [waitSig, sentBytes]
  | cons c s ih =>
    have h := waitChar_sent c rx j
    rcases hw : waitChar c rx j with ⟨e1, _ | ⟨j1, rx1⟩⟩
    · rw [hw] at h
      simpa [waitSig, hw] using h
    · rw [hw] at h
      simp [waitSig, hw, sentBytes_append, h, ih]

theorem waitRDY_sent (rx : List Nat) : sentBytes (waitRDY rx).1 = [] := by
  have h := waitSig_sent Sig rx 0
  rcases hw : waitSig Sig rx 0 with ⟨ev, _ | ⟨j1, rx1⟩⟩
  · rw [hw] at h
    simpa [waitRDY, hw] using h
  · rw [hw] at h
    simp only [waitRDY, hw]
    split <;> simp [sentBytes_append, h, sentBytes]

/-- The events of a completed handshake. -/
theorem handshake_some (dump : Bool) (rx : List Nat) (ev : List Event) (manid id : Nat)
    (rest : List Nat) (h : handshake dump rx = (ev, some (manid, id, rest))) :
    ∃ e1 rx1 e2,
      waitRDY rx = (e1, some rx1) ∧ waitRDY rx1 = (e2, some (manid :: id :: rest)) ∧
      ev = e1 ++ [Event.send 82, Event.send (if dump then 82 else 87)] ++ e2 ++
        [Event.print Msg.flasherReady, Event.recv manid, Event.print Msg.chipInfo,
          Event.print (Msg.manufacturer manid), Event.recv id,
          Event.print (Msg.deviceId id)] := by
  rcases h1 : waitRDY rx with ⟨e1, _ | rx1⟩
  · simp [handshake, h1] at h
  rcases h2 : waitRDY rx1 with ⟨e2, _ | rx2⟩
  · simp [handshake, h1, h2] at h
  match rx2, h2 with
  | [], h2 => simp [handshake, h1, h2, RS232_PollComport] at h
  | [_], h2 => simp [handshake, h1, h2, RS232_PollComport] at h
  | m :: i :: r, h2 =>
    simp only [handshake, h1, h2, RS232_PollComport, Prod.mk.injEq, Option.some.injEq] at h
    obtain ⟨rfl, rfl, rfl, rfl⟩ := h
    exact ⟨e1, rx1, e2, rfl, h2, rfl⟩

theorem handshake_sent (dump : Bool) (rx : List Nat) (ev : List Event) (manid id : Nat)
    (rest : List Nat) (h : handshake dump rx = (ev, some (manid, id, rest))) :
    sentBytes ev = [82, if dump then 82 else 87] := by
  obtain ⟨e1, rx1, e2, h1, h2, rfl⟩ := handshake_some dump rx ev manid id rest h
  have s1 := waitRDY_sent rx
  have s2 := waitRDY_sent rx1
  rw [h1] at s1
  rw [h2] at s2
  simp [sentBytes_append, sentBytes, s1, s2]

theorem main_identified (env : Env) (dump : Bool) (ev : List Event) (manid id : Nat)
    (rx : List Nat) (hmode : parseMode env.argv = Except.ok dump)
    (hport : env.portOpens = true)
    (hhs : handshake dump env.rx = (ev, some (manid, id, rx))) :
    main env = Run.after (opening env dump ++ ev ++ (chipCapacity id).1)
      (if dump = false then flashMode env (chipCapacity id).2 rx
       else dumpMode env (chipCapacity id).2 rx) := by
  simp [main, hmode, hport, hhs, opening, Run.after]

theorem loadBuffer_eq (capacity : Nat) (file : List Nat) :
    loadBuffer capacity file = file ++ List.replicate (capacity - file.length) 0 := by
  simp [loadBuffer]

theorem loadBuffer_length (capacity : Nat) (file : List Nat) (h : file.length ≤ capacity) :
    (loadBuffer capacity file).length = capacity := by
  rw [loadBuffer_eq, List.length_append, List.length_replicate]
  omega

theorem sentBytes_flatMap (l : List Nat) (F : Nat → List Event) :
    sentBytes (l.flatMap F) = l.flatMap (fun k => sentBytes (F k)) := by
  induction l with
  | nil => rfl
  | cons a l ih => simp [sentBytes_append, ih]

theorem recvBytes_flatMap (l : List Nat) (F : Nat → List Event) :
    recvBytes (l.flatMap F) = l.flatMap (fun k => recvBytes (F k)) := by
  induction l with
  | nil => rfl
  | cons a l ih => simp [recvBytes_append, ih]

theorem fileBytes_flatMap (l : List Nat) (F : Nat → List Event) :
    fileBytes (l.flatMap F) = l.flatMap (fun k => fileBytes (F k)) := by
  induction l with
  | nil => rfl
  | cons a l ih => simp [fileBytes_append, ih]

theorem sentBytes_cycle (b ack rb i capacity : Nat) :
    sentBytes (cycleEvents b ack rb i capacity) = [b] := by
  unfold cycleEvents
  split <;> split <;> simp [sentBytes]

theorem recvBytes_cycle (b ack rb i capacity : Nat) :
    recvBytes (cycleEvents b ack rb i capacity) = [ack, rb] := by
  unfold cycleEvents
  split <;> split <;> simp [recvBytes]

theorem fileBytes_cycle (b ack rb i capacity : Nat) :
    fileBytes (cycleEvents b ack rb i capacity) = [] := by
  unfold cycleEvents
  split <;> split <;> simp [fileBytes]

theorem range_getD (l : List Nat) (n : Nat) (h : n ≤ l.length) :
    (List.range n).map (fun k => l.getD k 0) = l.take n := by
  induction n generalizing l with
  | zero => simp
  | succ n ih =>
    match l, h with
    | a :: l, h =>
      rw [List.range_succ_eq_map, List.map_cons, List.map_map]
      have := ih l (by simpa using h)
      simp only [List.take_succ_cons, List.getD_cons_zero]
      congr 1

theorem range_pairs (l : List Nat) (n : Nat) (h : 2 * n ≤ l.length) :
    (List.range n).flatMap (fun k => [l.getD (2 * k) 0, l.getD (2 * k + 1) 0]) =
      l.take (2 * n) := by
  induction n generalizing l with
  | zero => simp
  | succ n ih =>
    match l, h with
    | a :: b :: l, h =>
      rw [List.range_succ_eq_map, List.flatMap_cons, List.flatMap_map]
      have h2 : 2 * n ≤ l.length := by simp at h; omega
      have := ih l h2
      have e : 2 * (n + 1) = 2 * n + 1 + 1 := by omega
      rw [e, List.take_succ_cons, List.take_succ_cons, ← this]
      simp only [Function.comp_def, Nat.succ_eq_add_one, Nat.mul_add, Nat.mul_one]
      simp
    | [], h => simp at h
    | [_], h => exact absurd h (by simp only [List.length_singleton]; omega)

theorem waitRDY_file (rx rest : List Nat) (h : (waitRDY rx).2 = some rest) :
    fileBytes (waitRDY rx).1 = [] := by
  obtain ⟨j1, j2, j3, ev, junkC, -, -, -, -, -, h6, -, -, h9, -⟩ := waitRDY_rdy rx rest h
  rw [h6, fileBytes_append, h9]
  split <;> simp [fileBytes]

theorem handshake_file (dump : Bool) (rx : List Nat) (ev : List Event) (manid id : Nat)
    (rest : List Nat) (h : handshake dump rx = (ev, some (manid, id, rest))) :
    fileBytes ev = [] := by
  obtain ⟨e1, rx1, e2, h1, h2, rfl⟩ := handshake_some dump rx ev manid id rest h
  have s1 := waitRDY_file rx rx1 (by rw [h1])
  have s2 := waitRDY_file rx1 _ (by rw [h2])
  rw [h1] at s1
  rw [h2] at s2
  simp [fileBytes_append, fileBytes, s1, s2]

theorem chipCapacity_sent (id : Nat) : sentBytes (chipCapacity id).1 = [] := by
  unfold chipCapacity
  split_ifs <;> rfl

theorem chipCapacity_recv (id : Nat) : recvBytes (chipCapacity id).1 = [] := by
  unfold chipCapacity
  split_ifs <;> rfl

theorem chipCapacity_file (id : Nat) : fileBytes (chipCapacity id).1 = [] := by
  unfold chipCapacity
  split_ifs <;> rfl

theorem chipCapacity_pos (id : Nat) : 0 < (chipCapacity id).2 := by
  unfold chipCapacity
  split_ifs <;> simp

/-- The whole run of a completed flashing session. -/
theorem main_write_ok (env : Env) (ev : List Event) (manid id : Nat) (resp file : List Nat)
    (hmode : parseMode env.argv = Except.ok false) (hport : env.portOpens = true)
    (hhs : handshake false env.rx = (ev, some (manid, id, 68 :: 83 :: resp)))
    (hfile : env.srcFile = some file) (hsize : file.length ≤ (chipCapacity id).2)
    (halloc : env.allocOk = true) (hresp : 2 * (chipCapacity id).2 ≤ resp.length) :
    main env =
      ⟨opening env false ++ ev ++ (chipCapacity id).1 ++
        [Event.fopen false true, Event.calloc (chipCapacity id).2 true,
          Event.fread file.length, Event.fclose, Event.print Msg.erasing, Event.recv 68,
          Event.print Msg.newline, Event.recv 83, Event.print Msg.eraseComplete,
          Event.print (Msg.beginFlash (env.argv.getD 2 "")), Event.print Msg.newline] ++
        (List.range (chipCapacity id).2).flatMap (fun i =>
          cycleEvents ((file ++ List.replicate ((chipCapacity id).2 - file.length) 0).getD i 0)
            (resp.getD (2 * i) 0) (resp.getD (2 * i + 1) 0) i (chipCapacity id).2) ++
        [Event.print Msg.completed, Event.closePort, Event.free], Outcome.exit 0⟩ := by
  rw [main_identified env false ev manid id _ hmode hport hhs]
  have hl := transferLoop_write false
    (file ++ List.replicate ((chipCapacity id).2 - file.length) 0) (chipCapacity id).2
    (chipCapacity id).2 0 resp (by simp) hresp
    (by rw [← loadBuffer_eq, loadBuffer_length _ _ hsize])
  simp only [Nat.zero_add] at hl
  simp [flashMode, hfile, Nat.not_lt.mpr hsize, halloc, RS232_PollComport, transfer,
    loadBuffer_eq, hl, Run.after]

/-- The whole run of a completed dumping session. -/
theorem main_dump_ok (env : Env) (ev : List Event) (manid id : Nat) (rest : List Nat)
    (hmode : parseMode env.argv = Except.ok true) (hport : env.portOpens = true)
    (hhs : handshake true env.rx = (ev, some (manid, id, rest)))
    (hout : env.outOpens = true) (hlen : (chipCapacity id).2 ≤ rest.length) :
    main env =
      ⟨opening env true ++ ev ++ (chipCapacity id).1 ++
        [Event.fopen true true, Event.print (Msg.beginDump (env.argv.getD 2 "")),
          Event.print Msg.newline] ++
        (List.range (chipCapacity id).2).flatMap (fun i =>
          [Event.recv (rest.getD i 0), Event.fputc (rest.getD i 0),
            Event.print (Msg.progress i (chipCapacity id).2)]) ++
        [Event.print Msg.completed, Event.closePort, Event.fclose], Outcome.exit 0⟩ := by
  rw [main_identified env true ev manid id _ hmode hport hhs]
  have hl := transferLoop_dump [] (chipCapacity id).2 (chipCapacity id).2 0 rest (by simp) hlen
  simp only [Nat.zero_add] at hl
  simp [dumpMode, hout, transfer, hl, Run.after]

theorem flatMap_single (l : List Nat) (f : Nat → Nat) :
    l.flatMap (fun k => [f k]) = l.map f := by
  induction l with
  | nil => rfl
  | cons a l ih => simp [ih]

theorem opening_sent (env : Env) (dump : Bool) : sentBytes (opening env dump) = [] := rfl

theorem opening_recv (env : Env) (dump : Bool) : recvBytes (opening env dump) = [] := rfl

theorem opening_file (env : Env) (dump : Bool) : fileBytes (opening env dump) = [] := rfl

/-- C1: in write mode, for every device ID, every source file of size `S ≤ capacity` and
every sequence `resp` of device responses that supplies the two bytes of each cycle, once
the erase handshake has returned 'D' then 'S' the whole run sends 'R', 'W' and then exactly
the `capacity` bytes of the buffer built by `calloc` and `fread` (`loadBuffer`), in index
order: data byte `i` is the file's byte `i` for `i < S` and 0 for `S ≤ i < capacity`.  The
bytes sent do not mention `resp`; the run reads exactly `2 * capacity` response bytes and
returns exit code 0. -/
theorem write_sends_padded_file (env : Env) (ev : List Event) (manid id : Nat)
    (resp file : List Nat)
    (hmode : parseMode env.argv = Except.ok false) (hport : env.portOpens = true)
    (hhs : handshake false env.rx = (ev, some (manid, id, 68 :: 83 :: resp)))
    (hfile : env.srcFile = some file) (hsize : file.length ≤ (chipCapacity id).2)
    (halloc : env.allocOk = true) (hresp : 2 * (chipCapacity id).2 ≤ resp.length) :
    (main env).outcome = Outcome.exit 0 ∧
    sentBytes (main env).trace = 82 :: 87 :: loadBuffer (chipCapacity id).2 file ∧
    loadBuffer (chipCapacity id).2 file =
      file ++ List.replicate ((chipCapacity id).2 - file.length) 0 ∧
    (loadBuffer (chipCapacity id).2 file).length = (chipCapacity id).2 ∧
    (sentBytes (main env).trace).length = (chipCapacity id).2 + 2 ∧
    (∀ i, i < file.length → (sentBytes (main env).trace)[i + 2]? = file[i]?) ∧
    (∀ i, file.length ≤ i → i < (chipCapacity id).2 →
      (sentBytes (main env).trace)[i + 2]? = some 0) ∧
    recvBytes (main env).trace =
      recvBytes ev ++ 68 :: 83 :: resp.take (2 * (chipCapacity id).2) := by
  have hlen : (file ++ List.replicate ((chipCapacity id).2 - file.length) 0).length =
      (chipCapacity id).2 := by
    simp only [List.length_append, List.length_replicate]; omega
  have hsent : sentBytes (main env).trace =
      82 :: 87 :: (file ++ List.replicate ((chipCapacity id).2 - file.length) 0) := by
    rw [main_write_ok env ev manid id resp file hmode hport hhs hfile hsize halloc hresp]
    simp only [sentBytes_append, opening_sent, handshake_sent false _ ev manid id _ hhs,
      chipCapacity_sent, sentBytes_flatMap, sentBytes_cycle, flatMap_single]
    rw [range_getD _ _ (Nat.le_of_eq hlen.symm), List.take_of_length_le (Nat.le_of_eq hlen)]
    simp [sentBytes]
  refine ⟨?_, ?_, loadBuffer_eq _ _, loadBuffer_length _ _ hsize, ?_, ?_, ?_, ?_⟩
  · rw [main_write_ok env ev manid id resp file hmode hport hhs hfile hsize halloc hresp]
  · rw [hsent, loadBuffer_eq]
  · rw [hsent, List.length_cons, List.length_cons, hlen]
  · intro i hi
    rw [hsent, List.getElem?_cons_succ, List.getElem?_cons_succ,
      List.getElem?_append_left hi]
  · intro i hi hc
    rw [hsent, List.getElem?_cons_succ, List.getElem?_cons_succ,
      List.getElem?_append_right hi, List.getElem?_replicate]
    simp only [ite_eq_left_iff, reduceCtorEq, imp_false, not_not]
    omega
  · rw [main_write_ok env ev manid id resp file hmode hport hhs hfile hsize halloc hresp]
    simp only [recvBytes_append, opening_recv, chipCapacity_recv, recvBytes_flatMap,
      recvBytes_cycle, range_pairs resp _ hresp]
    simp [recvBytes]

theorem handshake_recv (dump : Bool) (rx : List Nat) (ev : List Event) (manid id : Nat)
    (rest : List Nat) (h : handshake dump rx = (ev, some (manid, id, rest))) :
    rx = recvBytes ev ++ rest := by
  obtain ⟨e1, rx1, e2, h1, h2, rfl⟩ := handshake_some dump rx ev manid id rest h
  obtain ⟨a1, a2, a3, ea, ja, ha, -, -, -, -, ha6, ha7, -⟩ := waitRDY_rdy rx rx1 (by rw [h1])
  obtain ⟨b1, b2, b3, eb, jb, hb, -, -, -, -, hb6, hb7, -⟩ := waitRDY_rdy rx1 _ (by rw [h2])
  rw [h1] at ha6
  rw [h2] at hb6
  simp only at ha6 hb6
  have r1 : recvBytes e1 = a1 ++ 82 :: (a2 ++ 68 :: (a3 ++ [89])) := by
    rw [ha6, recvBytes_append, ha7]; split <;> simp [recvBytes]
  have r2 : recvBytes e2 = b1 ++ 82 :: (b2 ++ 68 :: (b3 ++ [89])) := by
    rw [hb6, recvBytes_append, hb7]; split <;> simp [recvBytes]
  simp only [recvBytes_append, r1, r2]
  rw [ha, hb]
  simp [recvBytes]

theorem dumpCycle_file (a i c : Nat) :
    fileBytes [Event.recv a, Event.fputc a, Event.print (Msg.progress i c)] = [a] := rfl

theorem dumpCycle_recv (a i c : Nat) :
    recvBytes [Event.recv a, Event.fputc a, Event.print (Msg.progress i c)] = [a] := rfl

theorem dumpCycle_sent (a i c : Nat) :
    sentBytes [Event.recv a, Event.fputc a, Event.print (Msg.progress i c)] = [] := rfl

theorem flatMap_nil (l : List Nat) : l.flatMap (fun _ => ([] : List Nat)) = [] := by
  induction l with
  | nil => rfl
  | cons a l ih => simp [ih]

/-- C2: in dump mode, for every device ID and every byte stream `rest` the device sends after
the two identification bytes (at least `capacity` bytes of it), the run reads exactly the
first `capacity` bytes of `rest` and writes them to the output file unchanged and in order, so
the file has `capacity` bytes (262144 for device ID 0xB6); every byte read after the
identification goes to the file (no erase status byte), the only bytes ever sent are the
command bytes 'R', 'R', and the run returns exit code 0. -/
theorem dump_copies_stream (env : Env) (ev : List Event) (manid id : Nat) (rest : List Nat)
    (hmode : parseMode env.argv = Except.ok true) (hport : env.portOpens = true)
    (hhs : handshake true env.rx = (ev, some (manid, id, rest)))
    (hout : env.outOpens = true) (hlen : (chipCapacity id).2 ≤ rest.length) :
    (main env).outcome = Outcome.exit 0 ∧
    fileBytes (main env).trace = rest.take (chipCapacity id).2 ∧
    (fileBytes (main env).trace).length = (chipCapacity id).2 ∧
    (id = 0xB6 → (fileBytes (main env).trace).length = 262144) ∧
    recvBytes (main env).trace = recvBytes ev ++ rest.take (chipCapacity id).2 ∧
    env.rx = recvBytes ev ++ rest ∧
    sentBytes (main env).trace = [82, 82] := by
  rw [main_dump_ok env ev manid id rest hmode hport hhs hout hlen]
  have hf : fileBytes
      (opening env true ++ ev ++ (chipCapacity id).1 ++
        [Event.fopen true true, Event.print (Msg.beginDump (env.argv.getD 2 "")),
          Event.print Msg.newline] ++
        (List.range (chipCapacity id).2).flatMap (fun i =>
          [Event.recv (rest.getD i 0), Event.fputc (rest.getD i 0),
            Event.print (Msg.progress i (chipCapacity id).2)]) ++
        [Event.print Msg.completed, Event.closePort, Event.fclose]) =
      rest.take (chipCapacity id).2 := by
    simp only [fileBytes_append, opening_file, handshake_file true _ ev manid id _ hhs,
      chipCapacity_file, fileBytes_flatMap, dumpCycle_file, flatMap_single,
      range_getD rest _ hlen]
    simp [fileBytes]
  have hl : (rest.take (chipCapacity id).2).length = (chipCapacity id).2 := by
    rw [List.length_take]; omega
  refine ⟨rfl, hf, ?_, ?_, ?_, handshake_recv true _ ev manid id rest hhs, ?_⟩
  · simp only [hf, hl]
  · intro h
    rw [hf, hl, h]
    rfl
  · simp only [recvBytes_append, opening_recv, chipCapacity_recv, recvBytes_flatMap,
      dumpCycle_recv, flatMap_single, range_getD rest _ hlen]
    simp [recvBytes]
  · simp only [sentBytes_append, opening_sent, handshake_sent true _ ev manid id _ hhs,
      chipCapacity_sent, sentBytes_flatMap, dumpCycle_sent, flatMap_nil]
    simp [sentBytes]

/-- C9: in a completed write session the transfer part of the trace is, for every index
`i` from 0 to `capacity - 1` in order: send `buffer[i]`, read the acknowledgment, a
programming-error line exactly when the acknowledgment is not 'N', read the readback, a
verify line naming readback, address `i` and `buffer[i]` exactly when the readback differs
from `buffer[i]`, the progress line.  Whatever the responses, all `capacity` cycles run,
each byte is sent once, and the run ends with exit code 0. -/
theorem write_cycles (env : Env) (ev : List Event) (manid id : Nat) (resp file : List Nat)
    (hmode : parseMode env.argv = Except.ok false) (hport : env.portOpens = true)
    (hhs : handshake false env.rx = (ev, some (manid, id, 68 :: 83 :: resp)))
    (hfile : env.srcFile = some file) (hsize : file.length ≤ (chipCapacity id).2)
    (halloc : env.allocOk = true) (hresp : 2 * (chipCapacity id).2 ≤ resp.length) :
    ∃ before,
      (main env).trace = before ++
        (List.range (chipCapacity id).2).flatMap (fun i =>
          [Event.send ((loadBuffer (chipCapacity id).2 file).getD i 0),
           Event.recv (resp.getD (2 * i) 0)] ++
          (if resp.getD (2 * i) 0 ≠ 78 then
            [Event.print (Msg.progErr (resp.getD (2 * i) 0))] else []) ++
          [Event.recv (resp.getD (2 * i + 1) 0)] ++
          (if resp.getD (2 * i + 1) 0 ≠ (loadBuffer (chipCapacity id).2 file).getD i 0 then
            [Event.print (Msg.verifyErr (resp.getD (2 * i + 1) 0) i
              ((loadBuffer (chipCapacity id).2 file).getD i 0))] else []) ++
          [Event.print (Msg.progress i (chipCapacity id).2)]) ++
        [Event.print Msg.completed, Event.closePort, Event.free] ∧
      sentBytes before = [82, 87] ∧
      (main env).outcome = Outcome.exit 0 := by
  rw [main_write_ok env ev manid id resp file hmode hport hhs hfile hsize halloc hresp]
  refine ⟨opening env false ++ ev ++ (chipCapacity id).1 ++
        [Event.fopen false true, Event.calloc (chipCapacity id).2 true,
          Event.fread file.length, Event.fclose, Event.print Msg.erasing, Event.recv 68,
          Event.print Msg.newline, Event.recv 83, Event.print Msg.eraseComplete,
          Event.print (Msg.beginFlash (env.argv.getD 2 "")), Event.print Msg.newline],
      ?_, ?_, rfl⟩
  · simp only [loadBuffer_eq]
    rfl
  · simp only [sentBytes_append, opening_sent, handshake_sent false _ ev manid id _ hhs,
      chipCapacity_sent]
    simp [sentBytes]

/-- C3: the capacity decided from the device ID is 131072 for 0xB5 (name SST39SF010A),
262144 for 0xB6 (name SST39SF020A), 524288 for 0xB7 (name SST39SF040), and 524288 with the
"cannot determine" diagnostic for every other ID; hence it is always one of the three values.
The rest of `main` runs with that one value: it is a parameter of `flashMode` and `dumpMode`,
which never assign it. -/
theorem chipCapacity_table (id : Nat) :
    chipCapacity 0xB5 = ([Event.print (Msg.chipName "SST39SF010A")], 131072) ∧
    chipCapacity 0xB6 = ([Event.print (Msg.chipName "SST39SF020A")], 262144) ∧
    chipCapacity 0xB7 = ([Event.print (Msg.chipName "SST39SF040")], 524288) ∧
    (id ≠ 0xB5 ∧ id ≠ 0xB6 ∧ id ≠ 0xB7 →
      chipCapacity id = ([Event.print Msg.capacityUnknown], 524288)) ∧
    ((chipCapacity id).2 = 131072 ∨ (chipCapacity id).2 = 262144 ∨
      (chipCapacity id).2 = 524288) ∧
    (∀ (env : Env) (dump : Bool) (ev : List Event) (manid : Nat) (rx : List Nat),
      parseMode env.argv = Except.ok dump → env.portOpens = true →
      handshake dump env.rx = (ev, some (manid, id, rx)) →
      main env = Run.after (opening env dump ++ ev ++ (chipCapacity id).1)
        (if dump = false then flashMode env (chipCapacity id).2 rx
         else dumpMode env (chipCapacity id).2 rx)) := by
  refine ⟨rfl, rfl, rfl, ?_, ?_, ?_⟩
  · rintro ⟨h1, h2, h3⟩
    simp [chipCapacity, h1, h2, h3]
  · unfold chipCapacity
    split_ifs <;> simp
  · intro env dump ev manid rx hmode hport hhs
    exact main_identified env dump ev manid id rx hmode hport hhs

theorem waitRDY_snd (rx : List Nat) :
    (waitRDY rx).2 = (waitSig Sig rx 0).2.map (fun r => r.2) := by
  rcases hw : waitSig Sig rx 0 with ⟨e1, _ | ⟨j1, rx1⟩⟩ <;> simp [waitRDY, hw]

/-- C10: `waitRDY` returns exactly when R, D, Y occur in that order as a (not necessarily
contiguous) subsequence of the stream, and what it has consumed is the shortest initial
segment of the stream that contains such a subsequence.  On R X D X Y, which contains no
contiguous R D Y, it returns with junk count 2. -/
theorem waitRDY_subsequence (rx : List Nat) :
    ((waitRDY rx).2.isSome = true ↔ List.Sublist [82, 68, 89] rx) ∧
    (∀ rest, (waitRDY rx).2 = some rest →
      ∃ p, rx = p ++ rest ∧ List.Sublist [82, 68, 89] p ∧
        ∀ n, List.Sublist [82, 68, 89] (rx.take n) → p.length ≤ n) ∧
    waitRDY [82, 88, 68, 88, 89] =
      ([Event.recv 82, Event.recv 88, Event.print (Msg.junkChar 88 68 1), Event.recv 68,
        Event.recv 88, Event.print (Msg.junkChar 88 89 2), Event.recv 89,
        Event.print (Msg.junkSkipped 2)], some []) ∧
    (∀ a b : List Nat, [82, 88, 68, 88, 89] ≠ a ++ [82, 68, 89] ++ b) := by
  refine ⟨?_, ?_, by decide, ?_⟩
  · have h := waitSig_none Sig rx 0
    rw [waitRDY_snd]
    rcases hw : (waitSig Sig rx 0).2 with _ | r
    · rw [hw] at h
      simpa [Sig] using h
    · rw [hw] at h
      have h2 : List.Sublist Sig rx := by
        by_contra hn
        exact absurd (h.2 hn) (by simp)
      simpa [Sig] using h2
  · intro rest h
    rw [waitRDY_snd] at h
    rcases hw : waitSig Sig rx 0 with ⟨ev, _ | ⟨j1, rx1⟩⟩
    · rw [hw] at h; simp at h
    · rw [hw] at h
      have h : rx1 = rest := by simpa using h
      subst h
      exact waitSig_some Sig rx 0 ev j1 rx1 hw
  · intro a b h
    have hl := congrArg List.length h
    simp only [List.length_append, List.length_cons, List.length_nil] at hl
    match a, h with
    | [], h => simp at h
    | [_], h => simp at h
    | [_, _], h => simp at h
    | _ :: _ :: _ :: _, h =>
      simp only [List.length_cons] at hl
      omega

theorem flashMode_tooLarge (env : Env) (capacity : Nat) (rx file : List Nat)
    (hfile : env.srcFile = some file) (hsize : file.length > capacity) :
    flashMode env capacity rx =
      ⟨[Event.fopen false true, Event.print (Msg.fileTooLarge file.length capacity),
        Event.fclose], Outcome.exit 1⟩ := by
  simp [flashMode, hfile, hsize, Run.after]

theorem flashMode_sized (env : Env) (capacity : Nat) (rx file : List Nat)
    (hfile : env.srcFile = some file) (hsize : file.length ≤ capacity) :
    ∃ tail, (flashMode env capacity rx).trace =
      [Event.fopen false true, Event.calloc capacity env.allocOk] ++ tail := by
  cases ha : env.allocOk
  · exact ⟨[Event.print Msg.allocErr, Event.fclose],
      by simp [flashMode, hfile, Nat.not_lt.mpr hsize, ha, Run.after]⟩
  · simp only [flashMode, hfile, gt_iff_lt, Nat.not_lt.mpr hsize, ↓reduceIte, ha,
      Bool.true_eq_false, after_trace]
    exact ⟨_, rfl⟩

theorem flashMode_erase (env : Env) (capacity : Nat) (rx file : List Nat)
    (hfile : env.srcFile = some file) (hsize : file.length ≤ capacity)
    (halloc : env.allocOk = true) :
    flashMode env capacity rx = Run.after (flashSetup capacity file.length)
      (match rx with
       | [] => ⟨[], Outcome.blocked⟩
       | [s1] =>
         if s1 ≠ 68 then
           ⟨[Event.recv s1, Event.print Msg.eraseStartErr, Event.free], Outcome.exit 1⟩
         else ⟨[Event.recv s1, Event.print Msg.newline], Outcome.blocked⟩
       | s1 :: s2 :: r2 =>
         if s1 ≠ 68 then
           ⟨[Event.recv s1, Event.print Msg.eraseStartErr, Event.free], Outcome.exit 1⟩
         else if s2 = 83 then
           Run.after [Event.recv s1, Event.print Msg.newline, Event.recv s2,
             Event.print Msg.eraseComplete,
             Event.print (Msg.beginFlash (env.argv.getD 2 ""))]
             (transfer false false (loadBuffer capacity file) capacity r2)
         else
           ⟨[Event.recv s1, Event.print Msg.newline, Event.recv s2,
             Event.print (Msg.eraseErr s2), Event.free], Outcome.exit 1⟩) := by
  match rx with
  | [] => simp [flashMode, hfile, Nat.not_lt.mpr hsize, halloc, RS232_PollComport, Run.after,
      flashSetup]
  | [s1] =>
    by_cases h1 : s1 = 68 <;>
    simp [flashMode, hfile, Nat.not_lt.mpr hsize, halloc, RS232_PollComport, Run.after,
      flashSetup, h1]
  | s1 :: s2 :: r2 =>
    by_cases h1 : s1 = 68 <;> by_cases h2 : s2 = 83 <;>
    simp [flashMode, hfile, Nat.not_lt.mpr hsize, halloc, RS232_PollComport, Run.after,
      flashSetup, h1, h2]

theorem transfer_first_send (fp : Bool) (dat : List Nat) (capacity : Nat) (rx : List Nat)
    (hc : 0 < capacity) (hdat : 0 < dat.length) :
    ∃ t, (transfer false fp dat capacity rx).trace =
      Event.print Msg.newline :: Event.send (dat.getD 0 0) :: t := by
  have h : ∃ t, (transferLoop false fp dat capacity 0 rx).1 = Event.send (dat.getD 0 0) :: t := by
    have hd : dat[0]? = some (dat.getD 0 0) := by
      rw [List.getD_eq_getElem?_getD, List.getElem?_eq_getElem hdat]
      rfl
    rw [transferLoop]
    simp only [hc, ↓reduceIte, Bool.false_eq_true, hd, programByte]
    match rx with
    | [] => exact ⟨_, rfl⟩
    | [a] => exact ⟨_, rfl⟩
    | a :: b :: r => exact ⟨_, rfl⟩
  obtain ⟨t, ht⟩ := h
  rcases hl : transferLoop false fp dat capacity 0 rx with ⟨ev, _ | o⟩
  · rw [hl] at ht
    simp only at ht
    subst ht
    exact ⟨_, by simp [transfer, hl, Run.after]; rfl⟩
  · rw [hl] at ht
    simp only at ht
    subst ht
    exact ⟨_, by simp [transfer, hl, Run.after]; rfl⟩

theorem main_tooLarge (env : Env) (ev : List Event) (manid id : Nat) (rest file : List Nat)
    (hmode : parseMode env.argv = Except.ok false) (hport : env.portOpens = true)
    (hhs : handshake false env.rx = (ev, some (manid, id, rest)))
    (hfile : env.srcFile = some file) (hsize : file.length > (chipCapacity id).2) :
    main env =
      ⟨opening env false ++ ev ++ (chipCapacity id).1 ++
        [Event.fopen false true,
         Event.print (Msg.fileTooLarge file.length (chipCapacity id).2), Event.fclose],
       Outcome.exit 1⟩ := by
  rw [main_identified env false ev manid id _ hmode hport hhs]
  simp [flashMode_tooLarge env _ rest file hfile hsize, Run.after]

/-- C5, amended: in write mode, when the source file is larger than the decoded capacity
the run returns exit code 1 right after the size check: the only bytes it has sent are the
command bytes 'R', 'W' (no data byte), and the only bytes it has read are those of the
handshake, the two identification bytes being the last (no erase status byte).  A source
file of exactly `capacity` bytes passes the size check: the run goes on to `calloc`. -/
theorem oversize_rejected (env : Env) (ev : List Event) (manid id : Nat)
    (rest file : List Nat)
    (hmode : parseMode env.argv = Except.ok false) (hport : env.portOpens = true)
    (hhs : handshake false env.rx = (ev, some (manid, id, rest)))
    (hfile : env.srcFile = some file) :
    (file.length > (chipCapacity id).2 →
      (main env).outcome = Outcome.exit 1 ∧
      (main env).trace = opening env false ++ ev ++ (chipCapacity id).1 ++
        [Event.fopen false true,
         Event.print (Msg.fileTooLarge file.length (chipCapacity id).2), Event.fclose] ∧
      sentBytes (main env).trace = [82, 87] ∧
      recvBytes (main env).trace = recvBytes ev ∧
      env.rx = recvBytes ev ++ rest) ∧
    (file.length = (chipCapacity id).2 →
      ∃ tail, (main env).trace = opening env false ++ ev ++ (chipCapacity id).1 ++
        [Event.fopen false true, Event.calloc (chipCapacity id).2 env.allocOk] ++ tail) := by
  constructor
  · intro hsize
    rw [main_tooLarge env ev manid id rest file hmode hport hhs hfile hsize]
    refine ⟨rfl, rfl, ?_, ?_, handshake_recv false _ ev manid id rest hhs⟩
    · simp only [sentBytes_append, opening_sent, handshake_sent false _ ev manid id _ hhs,
        chipCapacity_sent]
      simp [sentBytes]
    · simp only [recvBytes_append, opening_recv, chipCapacity_recv]
      simp [recvBytes]
  · intro hsize
    rw [main_identified env false ev manid id _ hmode hport hhs]
    obtain ⟨tail, ht⟩ := flashMode_sized env (chipCapacity id).2 rest file hfile
      (Nat.le_of_eq hsize)
    exact ⟨tail, by simp [after_trace, ht]⟩

theorem oversized_handshake :
    handshake false oversized.rx = (cleanHandshake false 191 181, some (191, 181, [68, 83])) := by
  decide

/-- C5 as stated fails: with a 131073-byte file and device ID 0xB5 the run returns exit code
1, and it has sent two bytes ('R', 'W') on the transport. -/
theorem oversized_sends_command :
    oversized.srcFile = some (List.replicate 131073 0) ∧
    (List.replicate 131073 0).length > (chipCapacity 181).2 ∧
    (main oversized).outcome = Outcome.exit 1 ∧
    sentBytes (main oversized).trace = [82, 87] ∧
    sentBytes (main oversized).trace ≠ [] := by
  have hsize : (List.replicate 131073 0).length > (chipCapacity 181).2 := by
    rw [List.length_replicate]; decide
  have h := main_tooLarge oversized _ 191 181 [68, 83] (List.replicate 131073 0)
    rfl rfl oversized_handshake rfl hsize
  have hs : sentBytes (main oversized).trace = [82, 87] := by
    rw [h]
    simp only [sentBytes_append, opening_sent, chipCapacity_sent]
    rfl
  refine ⟨rfl, hsize, by rw [h], hs, ?_⟩
  rw [hs]
  simp

/-- C6: in write mode with an accepted source file and a buffer allocated, if the first
byte after the identification is not 'D' the run returns exit code 1 having read that one
status byte; if it is 'D' and the next is not 'S' the run returns exit code 1 having read
those two; in both cases nothing but 'R', 'W' was sent.  After 'D', 'S' the run continues
with the transfer, and a data byte is sent if and only if the two status bytes are 'D', 'S'. -/
theorem erase_handshake (env : Env) (ev : List Event) (manid id : Nat)
    (rest file : List Nat)
    (hmode : parseMode env.argv = Except.ok false) (hport : env.portOpens = true)
    (hhs : handshake false env.rx = (ev, some (manid, id, rest)))
    (hfile : env.srcFile = some file) (hsize : file.length ≤ (chipCapacity id).2)
    (halloc : env.allocOk = true) :
    (∀ s1 r1, rest = s1 :: r1 → s1 ≠ 68 →
      (main env).outcome = Outcome.exit 1 ∧
      recvBytes (main env).trace = recvBytes ev ++ [s1] ∧
      sentBytes (main env).trace = [82, 87]) ∧
    (∀ s2 r2, rest = 68 :: s2 :: r2 → s2 ≠ 83 →
      (main env).outcome = Outcome.exit 1 ∧
      recvBytes (main env).trace = recvBytes ev ++ [68, s2] ∧
      sentBytes (main env).trace = [82, 87]) ∧
    (∀ r2, rest = 68 :: 83 :: r2 →
      main env = Run.after
        (opening env false ++ ev ++ (chipCapacity id).1 ++
          flashSetup (chipCapacity id).2 file.length ++
          [Event.recv 68, Event.print Msg.newline, Event.recv 83,
           Event.print Msg.eraseComplete,
           Event.print (Msg.beginFlash (env.argv.getD 2 ""))])
        (transfer false false (loadBuffer (chipCapacity id).2 file) (chipCapacity id).2 r2)) ∧
    (sentBytes (main env).trace ≠ [82, 87] ↔ ∃ r2, rest = 68 :: 83 :: r2) := by
  have hm := main_identified env false ev manid id _ hmode hport hhs
  have hf := flashMode_erase env (chipCapacity id).2 rest file hfile hsize halloc
  simp only [↓reduceIte] at hm
  rw [hf] at hm
  have hsent : sentBytes (opening env false ++ ev ++ (chipCapacity id).1 ++
      flashSetup (chipCapacity id).2 file.length) = [82, 87] := by
    simp only [sentBytes_append, opening_sent, handshake_sent false _ ev manid id _ hhs,
      chipCapacity_sent]
    simp [sentBytes, flashSetup]
  have hrecv : recvBytes (opening env false ++ ev ++ (chipCapacity id).1 ++
      flashSetup (chipCapacity id).2 file.length) = recvBytes ev := by
    simp only [recvBytes_append, opening_recv, chipCapacity_recv]
    simp [recvBytes, flashSetup]
  rw [after_after] at hm
  have case1 : ∀ s1 r1, rest = s1 :: r1 → s1 ≠ 68 →
      main env = Run.after (opening env false ++ ev ++ (chipCapacity id).1 ++
        flashSetup (chipCapacity id).2 file.length)
        ⟨[Event.recv s1, Event.print Msg.eraseStartErr, Event.free], Outcome.exit 1⟩ := by
    intro s1 r1 hr h1
    rw [hm, hr]
    cases r1 <;> simp [h1]
  have case2 : ∀ s2 r2, rest = 68 :: s2 :: r2 → s2 ≠ 83 →
      main env = Run.after (opening env false ++ ev ++ (chipCapacity id).1 ++
        flashSetup (chipCapacity id).2 file.length)
        ⟨[Event.recv 68, Event.print Msg.newline, Event.recv s2,
          Event.print (Msg.eraseErr s2), Event.free], Outcome.exit 1⟩ := by
    intro s2 r2 hr h2
    rw [hm, hr]
    simp [h2]
  have case3 : ∀ r2, rest = 68 :: 83 :: r2 →
      main env = Run.after
        (opening env false ++ ev ++ (chipCapacity id).1 ++
          flashSetup (chipCapacity id).2 file.length ++
          [Event.recv 68, Event.print Msg.newline, Event.recv 83,
           Event.print Msg.eraseComplete,
           Event.print (Msg.beginFlash (env.argv.getD 2 ""))])
        (transfer false false (loadBuffer (chipCapacity id).2 file)
          (chipCapacity id).2 r2) := by
    intro r2 hr
    rw [hm, hr]
    simp only [ne_eq, not_true_eq_false, ↓reduceIte, after_after]
  refine ⟨?_, ?_, case3, ?_⟩
  · intro s1 r1 hr h1
    rw [case1 s1 r1 hr h1]
    refine ⟨rfl, ?_, ?_⟩
    · rw [after_trace, recvBytes_append, hrecv]; rfl
    · rw [after_trace, sentBytes_append, hsent]; rfl
  · intro s2 r2 hr h2
    rw [case2 s2 r2 hr h2]
    refine ⟨rfl, ?_, ?_⟩
    · rw [after_trace, recvBytes_append, hrecv]; rfl
    · rw [after_trace, sentBytes_append, hsent]; rfl
  · constructor
    · intro hne
      by_contra hno
      apply hne
      match rest, hm, case1, case2, hno with
      | [], hm, _, _, _ =>
        rw [hm, after_trace, sentBytes_append, hsent]; rfl
      | [s1], hm, c1, _, _ =>
        by_cases h1 : s1 = 68
        · rw [hm, after_trace, sentBytes_append, hsent]; simp [h1, sentBytes]
        · rw [c1 s1 [] rfl h1, after_trace, sentBytes_append, hsent]; rfl
      | s1 :: s2 :: r2, hm, c1, c2, hno =>
        by_cases h1 : s1 = 68
        · subst h1
          by_cases h2 : s2 = 83
          · subst h2
            exact absurd ⟨r2, rfl⟩ hno
          · rw [c2 s2 r2 rfl h2, after_trace, sentBytes_append, hsent]; rfl
        · rw [c1 s1 _ rfl h1, after_trace, sentBytes_append, hsent]; rfl
    · rintro ⟨r2, hr⟩
      rw [case3 r2 hr, after_trace]
      obtain ⟨t, ht⟩ := transfer_first_send false (loadBuffer (chipCapacity id).2 file)
        (chipCapacity id).2 r2 (chipCapacity_pos id)
        (by rw [loadBuffer_length _ _ hsize]; exact chipCapacity_pos id)
      rw [ht, sentBytes_append, sentBytes_append, hsent]
      simp [sentBytes]

/-- C7: when the port is open and the first ready marker has been received, the trace is:
the opening lines, the reads of the first `waitRDY`, then the sends 'R' and ('R' in dump
mode, 'W' in write mode), then the events of the second `waitRDY`, then the rest.  Nothing
is sent in the opening, in either wait, or (when the second wait returns and two more bytes
arrive) before the two identification bytes are read. -/
theorem command_bytes (env : Env) (dump : Bool) (e1 : List Event) (rx1 : List Nat)
    (hmode : parseMode env.argv = Except.ok dump) (hport : env.portOpens = true)
    (h1 : waitRDY env.rx = (e1, some rx1)) :
    ∃ tail,
      (main env).trace = opening env dump ++ e1 ++
        [Event.send 82, Event.send (if dump then 82 else 87)] ++ (waitRDY rx1).1 ++ tail ∧
      sentBytes (opening env dump) = [] ∧ sentBytes e1 = [] ∧
      sentBytes (waitRDY rx1).1 = [] ∧
      (∀ manid id rest, (waitRDY rx1).2 = some (manid :: id :: rest) →
        ∃ tail2, tail = [Event.print Msg.flasherReady, Event.recv manid,
          Event.print Msg.chipInfo, Event.print (Msg.manufacturer manid), Event.recv id,
          Event.print (Msg.deviceId id)] ++ tail2) := by
  have s1 : sentBytes e1 = [] := by
    have := waitRDY_sent env.rx
    rw [h1] at this
    exact this
  rcases h2 : waitRDY rx1 with ⟨e2, _ | rx2⟩
  · refine ⟨[], ?_, rfl, s1, ?_, ?_⟩
    · simp [main, hmode, hport, handshake, h1, h2, Run.after, opening]
    · have := waitRDY_sent rx1
      rw [h2] at this
      exact this
    · intro manid id rest h
      simp at h
  · have s2 : sentBytes e2 = [] := by
      have := waitRDY_sent rx1
      rw [h2] at this
      exact this
    match rx2, h2 with
    | [], h2 =>
      refine ⟨[Event.print Msg.flasherReady], ?_, rfl, s1, s2, ?_⟩
      · simp [main, hmode, hport, handshake, h1, h2, Run.after, opening, RS232_PollComport]
      · intro manid id rest h
        simp at h
    | [m], h2 =>
      refine ⟨[Event.print Msg.flasherReady, Event.recv m, Event.print Msg.chipInfo,
        Event.print (Msg.manufacturer m)], ?_, rfl, s1, s2, ?_⟩
      · simp [main, hmode, hport, handshake, h1, h2, Run.after, opening, RS232_PollComport]
      · intro manid id rest h
        simp at h
    | m :: i :: r, h2 =>
      refine ⟨[Event.print Msg.flasherReady, Event.recv m, Event.print Msg.chipInfo,
          Event.print (Msg.manufacturer m), Event.recv i, Event.print (Msg.deviceId i)] ++
          ((chipCapacity i).1 ++
            (if dump = false then flashMode env (chipCapacity i).2 r
             else dumpMode env (chipCapacity i).2 r).trace), ?_, rfl, s1, s2, ?_⟩
      · simp [main, hmode, hport, handshake, h1, h2, Run.after, opening, RS232_PollComport]
      · intro manid id rest h
        simp only [Option.some.injEq, List.cons.injEq] at h
        obtain ⟨rfl, rfl, rfl⟩ := h
        exact ⟨_, rfl⟩

/-- C8 fails on the code: on the exit paths with status 1 after the port was opened (source
file cannot be opened, source file too large, allocation failure, erase-start mismatch,
erase-complete mismatch) the file and the buffer are released but `RS232_CloseComport` is
not called. -/
theorem error_exits_leave_port_open :
    ((main unreadable).outcome = Outcome.exit 1 ∧
      Event.openPort true ∈ (main unreadable).trace ∧
      Event.closePort ∉ (main unreadable).trace) ∧
    ((main noMemory).outcome = Outcome.exit 1 ∧
      Event.openPort true ∈ (main noMemory).trace ∧
      Event.fclose ∈ (main noMemory).trace ∧
      Event.closePort ∉ (main noMemory).trace) ∧
    ((main eraseNotStarted).outcome = Outcome.exit 1 ∧
      Event.openPort true ∈ (main eraseNotStarted).trace ∧
      Event.free ∈ (main eraseNotStarted).trace ∧
      Event.closePort ∉ (main eraseNotStarted).trace) ∧
    ((main eraseNotDone).outcome = Outcome.exit 1 ∧
      Event.openPort true ∈ (main eraseNotDone).trace ∧
      Event.free ∈ (main eraseNotDone).trace ∧
      Event.closePort ∉ (main eraseNotDone).trace) ∧
    ((main oversized).outcome = Outcome.exit 1 ∧
      Event.openPort true ∈ (main oversized).trace ∧
      Event.fclose ∈ (main oversized).trace ∧
      Event.closePort ∉ (main oversized).trace) := by
  have h := main_tooLarge oversized _ 191 181 [68, 83] (List.replicate 131073 0)
    rfl rfl oversized_handshake rfl (by rw [List.length_replicate]; decide)
  refine ⟨by decide, by decide, by decide, by decide, ?_⟩
  rw [h]
  decide

theorem steadyDevice_length : steadyDevice.length = 1048576 := List.length_replicate _ _

theorem demoWrite_handshake :
    handshake false demoWrite.rx =
      (cleanHandshake false 191 0, some (191, 0, 68 :: 83 :: steadyDevice)) := rfl

theorem demoDump_handshake :
    handshake true demoDump.rx = (cleanHandshake true 191 182, some (191, 182, steadyDevice)) :=
  rfl

theorem write_sends_padded_file_witness :
    (main demoWrite).outcome = Outcome.exit 0 ∧
    sentBytes (main demoWrite).trace =
      82 :: 87 :: loadBuffer (chipCapacity 0).2 (List.replicate 100 7) ∧
    loadBuffer (chipCapacity 0).2 (List.replicate 100 7) =
      List.replicate 100 7 ++ List.replicate (524288 - 100) 0 ∧
    (sentBytes (main demoWrite).trace).length = 524288 + 2 ∧
    (sentBytes (main demoWrite).trace)[99 + 2]? = some 7 ∧
    (sentBytes (main demoWrite).trace)[100 + 2]? = some 0 ∧
    (sentBytes (main demoWrite).trace)[524287 + 2]? = some 0 := by
  have hsize : (List.replicate 100 7).length ≤ (chipCapacity 0).2 := by
    rw [List.length_replicate]; decide
  have hresp : 2 * (chipCapacity 0).2 ≤ steadyDevice.length := by
    rw [steadyDevice_length]; decide
  have h := write_sends_padded_file demoWrite _ 191 0 steadyDevice (List.replicate 100 7)
    rfl rfl demoWrite_handshake rfl hsize rfl hresp
  rw [List.length_replicate] at h
  refine ⟨h.1, h.2.1, h.2.2.1, h.2.2.2.2.1, ?_, ?_, ?_⟩
  · rw [h.2.2.2.2.2.1 99 (by decide)]
    decide
  · exact h.2.2.2.2.2.2.1 100 (by decide) (by decide)
  · exact h.2.2.2.2.2.2.1 524287 (by decide) (by decide)

theorem write_cycles_witness :
    ∃ before,
      (main demoWrite).trace = before ++
        (List.range (chipCapacity 0).2).flatMap (fun i =>
          [Event.send ((loadBuffer (chipCapacity 0).2 (List.replicate 100 7)).getD i 0),
           Event.recv (steadyDevice.getD (2 * i) 0)] ++
          (if steadyDevice.getD (2 * i) 0 ≠ 78 then
            [Event.print (Msg.progErr (steadyDevice.getD (2 * i) 0))] else []) ++
          [Event.recv (steadyDevice.getD (2 * i + 1) 0)] ++
          (if steadyDevice.getD (2 * i + 1) 0 ≠
              (loadBuffer (chipCapacity 0).2 (List.replicate 100 7)).getD i 0 then
            [Event.print (Msg.verifyErr (steadyDevice.getD (2 * i + 1) 0) i
              ((loadBuffer (chipCapacity 0).2 (List.replicate 100 7)).getD i 0))] else []) ++
          [Event.print (Msg.progress i (chipCapacity 0).2)]) ++
        [Event.print Msg.completed, Event.closePort, Event.free] ∧
      sentBytes before = [82, 87] ∧
      (main demoWrite).outcome = Outcome.exit 0 :=
  write_cycles demoWrite _ 191 0 steadyDevice (List.replicate 100 7)
    rfl rfl demoWrite_handshake rfl
    (by rw [List.length_replicate]; decide) rfl
    (by rw [steadyDevice_length]; decide)

theorem dump_copies_stream_witness :
    (main demoDump).outcome = Outcome.exit 0 ∧
    (fileBytes (main demoDump).trace).length = 262144 ∧
    fileBytes (main demoDump).trace = steadyDevice.take 262144 ∧
    sentBytes (main demoDump).trace = [82, 82] := by
  have hlen : (chipCapacity 182).2 ≤ steadyDevice.length := by
    rw [steadyDevice_length]; decide
  have h := dump_copies_stream demoDump _ 191 182 steadyDevice rfl rfl demoDump_handshake
    rfl hlen
  exact ⟨h.1, h.2.2.2.1 rfl, h.2.1, h.2.2.2.2.2.2⟩

theorem oversize_rejected_witness :
    (List.replicate 131073 0).length > (chipCapacity 181).2 ∧
    (main oversized).outcome = Outcome.exit 1 ∧
    sentBytes (main oversized).trace = [82, 87] ∧
    recvBytes (main oversized).trace = [82, 68, 89, 82, 68, 89, 191, 181] := by
  have hsize : (List.replicate 131073 0).length > (chipCapacity 181).2 := by
    rw [List.length_replicate]; decide
  have h := (oversize_rejected oversized _ 191 181 [68, 83] (List.replicate 131073 0)
    rfl rfl oversized_handshake rfl).1 hsize
  exact ⟨hsize, h.1, h.2.2.1, h.2.2.2.1⟩

theorem eraseNotDone_handshake :
    handshake false eraseNotDone.rx =
      (cleanHandshake false 191 183, some (191, 183, [68, 84])) := by
  decide

theorem erase_handshake_witness :
    (main eraseNotDone).outcome = Outcome.exit 1 ∧
    recvBytes (main eraseNotDone).trace = [82, 68, 89, 82, 68, 89, 191, 183, 68, 84] ∧
    sentBytes (main eraseNotDone).trace = [82, 87] :=
  (erase_handshake eraseNotDone _ 191 183 [68, 84] [1, 2, 3] rfl rfl eraseNotDone_handshake
    rfl (by decide) rfl).2.1 84 [] rfl (by decide)

theorem command_bytes_witness :
    ∃ tail,
      (main eraseNotDone).trace = opening eraseNotDone false ++
        [Event.recv 82, Event.recv 68, Event.recv 89] ++
        [Event.send 82, Event.send 87] ++
        (waitRDY [82, 68, 89, 191, 183, 68, 84]).1 ++ tail ∧
      sentBytes (opening eraseNotDone false) = [] ∧
      sentBytes [Event.recv 82, Event.recv 68, Event.recv 89] = [] ∧
      sentBytes (waitRDY [82, 68, 89, 191, 183, 68, 84]).1 = [] ∧
      (∀ manid id rest,
        (waitRDY [82, 68, 89, 191, 183, 68, 84]).2 = some (manid :: id :: rest) →
        ∃ tail2, tail = [Event.print Msg.flasherReady, Event.recv manid,
          Event.print Msg.chipInfo, Event.print (Msg.manufacturer manid), Event.recv id,
          Event.print (Msg.deviceId id)] ++ tail2) :=
  command_bytes eraseNotDone false [Event.recv 82, Event.recv 68, Event.recv 89]
    [82, 68, 89, 191, 183, 68, 84] rfl rfl (by decide)

end Flasher
